import Mathlib

/-!
# Verification of `.ralph/serve.py` (Ralph Deluxe dashboard server)

A shallow embedding of the file-mutating core of `serve.py`:
the atomic file writer (`atomic_write`, lines 52-67), the command
enqueuer (`enqueue_command`, lines 70-94), the settings updater
(`update_settings`, lines 97-139) and the two POST handlers
(`RalphHandler._handle_command`, lines 184-195, and
`RalphHandler._handle_settings`, lines 197-208).

Modelling conventions:
* JSON documents are the inductive `Json` below; Python dicts produced by
  `json.load` are association lists with distinct keys, in insertion order.
* Python text is modelled as `String` at JSON leaves and as `List Char`
  where character-level reasoning is needed (the settings file content).
* `json.load` / `json.loads` are modelled by their outcome: a file cell
  (`FileData`) stores the raw text together with the parse result, and a
  request body arrives as `Except PyErr Json`.  `json.dumps` is modelled
  by the serializer `dumps` (indentation, being explicitly not part of the
  contract, is not reproduced).
* Python exceptions are `PyErr`: `json.JSONDecodeError` is distinguished
  because the handlers catch it specially; every other exception is
  `PyErr.other` with its message.
-/

set_option autoImplicit false

namespace Ralph

/-- JSON values.  Numbers are modelled as integers: the claims under
verification never involve fractional values. -/
inductive Json where
  | null : Json
  | bool (b : Bool) : Json
  | num (n : Int) : Json
  | str (s : String) : Json
  | arr (elems : List Json) : Json
  | obj (members : List (String × Json)) : Json

/-- Python exceptions as observed by the handlers' `except` clauses:
`json.JSONDecodeError` is caught by name, anything else only by the
blanket `except Exception`. -/
inductive PyErr where
  | jsonDecode : PyErr
  | other (msg : String) : PyErr
  deriving DecidableEq

/-- State of one file on disk, as the code can observe it through
`Path.exists`, `open`+`json.load` and `atomic_write`:
either the path is absent, or it holds raw text `raw` whose JSON parse
outcome is `parsed` (`none` models a `json.JSONDecodeError`). -/
inductive FileData where
  | absent : FileData
  | file (raw : String) (parsed : Option Json) : FileData

mutual

/-- Python `==` on JSON values (structural equality), used to model the
membership test `"command" in body` when the body is a list. -/
def jsonEq : Json → Json → Bool
  | .null, .null => true
  | .bool a, .bool b => a == b
  | .num a, .num b => a == b
  | .str a, .str b => a == b
  | .arr a, .arr b => jsonListEq a b
  | .obj a, .obj b => jsonMembersEq a b
  | _, _ => false

def jsonListEq : List Json → List Json → Bool
  | [], [] => true
  | a :: as, b :: bs => jsonEq a b && jsonListEq as bs
  | _, _ => false

def jsonMembersEq : List (String × Json) → List (String × Json) → Bool
  | [], [] => true
  | (k, v) :: as, (k', v') :: bs => k == k' && jsonEq v v' && jsonMembersEq as bs
  | _, _ => false

end

/-- Python `dict` lookup on an association list (keys are distinct for
dicts produced by `json.load`, so first match is the dict entry). -/
def objFind : List (String × Json) → String → Option Json
  | [], _ => none
  | (k', v') :: rest, k => if k' = k then some v' else objFind rest k

/-- Python `dict` assignment `d[k] = v`: replaces the entry in place if the
key is present (insertion order kept), appends at the end otherwise. -/
def objSet : List (String × Json) → String → Json → List (String × Json)
  | [], k, v => [(k, v)]
  | (k', v') :: rest, k, v =>
    if k' = k then (k, v) :: rest else (k', v') :: objSet rest k v

mutual

/-- `json.dumps`, modulo whitespace/indentation (serve.py passes
`indent=2`; spec section 4.2 states formatting is not a contract). -/
def dumps : Json → String
  | .null => "null"
  | .bool true => "true"
  | .bool false => "false"
  | .num n => toString n
  | .str s => "\"" ++ s ++ "\""
  | .arr xs => "[" ++ dumpsList xs ++ "]"
  | .obj ms => "\x7b" ++ dumpsMembers ms ++ "\x7d"

def dumpsList : List Json → String
  | [] => ""
  | [x] => dumps x
  | x :: y :: rest => dumps x ++ ", " ++ dumpsList (y :: rest)

def dumpsMembers : List (String × Json) → String
  | [] => ""
  | [(k, v)] => "\"" ++ k ++ "\": " ++ dumps v
  | (k, v) :: m :: rest =>
    "\"" ++ k ++ "\": " ++ dumps v ++ ", " ++ dumpsMembers (m :: rest)

end

/-- Core of `enqueue_command` after `json.load` succeeded (serve.py lines
88-94): default a missing `pending` key to `[]`, `.append` the command,
serialize and atomically write.  On a non-dict document Python raises a
`TypeError`/`AttributeError` at the subscript/append; modelled as
`PyErr.other`. -/
def enqueueDoc (cmd : Json) (control : Json) : Except PyErr (Json × FileData) :=
  match control with
  | .obj ms =>
    let ms1 := if (objFind ms "pending").isSome then ms
               else objSet ms "pending" (.arr [])
    match objFind ms1 "pending" with
    | some (.arr xs) =>
      let d := Json.obj (objSet ms1 "pending" (.arr (xs ++ [cmd])))
      .ok (d, .file (dumps d ++ "\n") (some d))
    | some _ => .error (.other "AttributeError: no append")
    | none => .error (.other "KeyError: pending")
  | _ => .error (.other "TypeError: not a dict")

/-- `enqueue_command` (serve.py lines 70-94) as a function of the
`commands.json` cell: read/parse the current queue (a parse failure
propagates `json.JSONDecodeError`; a missing file starts from
`{"pending": []}`), append, and atomically write back.  Returns the
updated in-memory document and the new file cell. -/
def enqueue_command (cmd : Json) (st : FileData) : Except PyErr (Json × FileData) :=
  match st with
  | .absent => enqueueDoc cmd (.obj [("pending", .arr [])])
  | .file _ none => .error .jsonDecode
  | .file _ (some control) => enqueueDoc cmd control

/-- An HTTP response as produced by `RalphHandler._send_json`:
status code and JSON payload. -/
structure HttpResp where
  status : Nat
  body : Json

/-- Substring test: does `needle` occur contiguously in the second list? -/
def strContains (needle : List Char) : List Char → Bool
  | [] => needle.isEmpty
  | c :: rest => List.isPrefixOf needle (c :: rest) || strContains needle rest

/-- Python `"command" in body` for a parsed JSON value: key test on a
dict, element test on a list, substring test on a string, and a
`TypeError` on the remaining (non-container) values. -/
def pyContains (j : Json) (k : String) : Except PyErr Bool :=
  match j with
  | .obj ms => .ok (objFind ms k).isSome
  | .arr xs => .ok (xs.any (jsonEq (.str k)))
  | .str s => .ok (strContains k.toList s.toList)
  | _ => .error (.other "TypeError: argument not iterable")

/-- `RalphHandler._handle_command` (serve.py lines 184-195), as a function
of the parse outcome of the request body (`_read_body`, whose
`json.loads` failure is `PyErr.jsonDecode`) and of the `commands.json`
cell.  The `try`/`except` ladder maps `json.JSONDecodeError` - from the
body *or* from `json.load` inside `enqueue_command` - to a 400
"Invalid JSON" response, and any other exception to a 500. -/
def handle_command (bodyRes : Except PyErr Json) (st : FileData) :
    HttpResp × FileData :=
  let run : Except PyErr (HttpResp × FileData) :=
    match bodyRes with
    | .error e => .error e
    | .ok body =>
      match pyContains body "command" with
      | .error e => .error e
      | .ok false =>
        .ok (⟨400, .obj [("error", .str "Missing \x27command\x27 field")]⟩, st)
      | .ok true =>
        match enqueue_command body st with
        | .error e => .error e
        | .ok (control, st') =>
          match control with
          | .obj ms =>
            match objFind ms "pending" with
            | some (.arr xs) =>
              .ok (⟨200, .obj [("ok", .bool true),
                               ("pending_count", .num xs.length)]⟩, st')
            | some _ => .error (.other "TypeError: no len")
            | none => .error (.other "KeyError: pending")
          | _ => .error (.other "TypeError: not subscriptable")
  match run with
  | .ok r => r
  | .error .jsonDecode => (⟨400, .obj [("error", .str "Invalid JSON")]⟩, st)
  | .error (.other m) => (⟨500, .obj [("error", .str m)]⟩, st)

/-! ## Settings updater

The `ralph.conf` content is modelled as `List Char` (one Python `str`
code point per element), so that the `re.MULTILINE` line mechanics of
`update_settings` can be reasoned about character by character. -/

/-- The `ALLOWED_SETTINGS` whitelist (serve.py lines 113-120). -/
def ALLOWED_SETTINGS : List String :=
  ["RALPH_VALIDATION_STRATEGY",
   "RALPH_COMPACTION_INTERVAL",
   "RALPH_COMPACTION_THRESHOLD_BYTES",
   "RALPH_DEFAULT_MAX_TURNS",
   "RALPH_MIN_DELAY_SECONDS",
   "RALPH_MODE"]

/-- One character of the sanitization class `[a-zA-Z0-9_\-]`. -/
def safeChar (c : Char) : Bool :=
  c.isAlpha || c.isDigit || c = '_' || c = '-'

/-- `[a-zA-Z0-9_\-]+` consuming the whole text. -/
def coreMatch (s : List Char) : Bool :=
  !s.isEmpty && s.all safeChar

/-- Python `re.match(r'^[a-zA-Z0-9_\-]+$', s)` as a Boolean: the `$`
anchor (without `re.MULTILINE`) matches at the end of the string *or*
just before a single trailing newline, so `"abc\n"` is accepted. -/
def sanitizeOk (s : List Char) : Bool :=
  coreMatch s ||
  (match s.getLast? with
   | some '\n' => coreMatch s.dropLast
   | _ => false)

/-- Split text into lines at `'\n'` (the line structure that `re.MULTILINE`
anchors `^`/`$` to).  Always returns at least one (possibly empty) line. -/
def splitNl : List Char → List (List Char)
  | [] => [[]]
  | c :: rest =>
    let r := splitNl rest
    if c = '\n' then [] :: r else (c :: r.headD []) :: r.tail

/-- Inverse of `splitNl`: re-join lines with `'\n'`. -/
def joinNl : List (List Char) → List Char
  | [] => []
  | [l] => l
  | l :: l' :: rest => l ++ '\n' :: joinNl (l' :: rest)

/-- Does `line` match `^KEY=` (the guard of the substitution pattern
`^(KEY=).*$`)? -/
def keyEq (key : String) (line : List Char) : Bool :=
  List.isPrefixOf (key.toList ++ ['=']) line

/-- `pattern.search(content)` for `^(KEY=).*$` in `re.MULTILINE` mode:
some line starts with `KEY=`. -/
def lineFound (key : String) (content : List Char) : Bool :=
  (splitNl content).any (keyEq key)

/-- A line that the updater may rewrite: it starts with `KEY=` for some
allow-listed `KEY` (spec section 3: "lines whose key is in a fixed
allow-list"). -/
def lineTouchable (line : List Char) : Bool :=
  ALLOWED_SETTINGS.any (fun k => keyEq k line)

/-- The replacement applied to one matching line:
`\g<1>"safe_value"`, i.e. `KEY="value"`. -/
def replLine (key : String) (safeVal : List Char) (line : List Char) : List Char :=
  if keyEq key line then key.toList ++ '=' :: '"' :: (safeVal ++ ['"']) else line

/-- `pattern.sub(r'\g<1>"value"', content)` for `^(KEY=).*$` in
`re.MULTILINE` mode: every line starting with `KEY=` is rewritten to
`KEY="value"`; all other lines are kept verbatim. -/
def subKey (key : String) (safeVal : List Char) (content : List Char) : List Char :=
  joinNl ((splitNl content).map (replLine key safeVal))

/-- `str(value)` for a JSON value: Python's text conversion.  String
escaping inside the `repr` of nested lists/dicts is not reproduced; it
only ever feeds the sanitizer, which rejects any such text on its
brackets alone. -/
def pyRepr : Json → String
  | .null => "None"
  | .bool true => "True"
  | .bool false => "False"
  | .num n => toString n
  | .str s => "\x27" ++ s ++ "\x27"
  | .arr _ => "[...]"
  | .obj _ => "\x7b...\x7d"

/-- `str(value)`: strings convert to themselves, everything else to its
`repr`-like text. -/
def pyStr : Json → String
  | .str s => s
  | .null => "None"
  | .bool true => "True"
  | .bool false => "False"
  | .num n => toString n
  | j => pyRepr j

/-- One iteration of the `for key, value in settings.items()` loop of
`update_settings` (serve.py lines 123-134), acting on the accumulated
`(content, updated)` state. -/
def settingsStep (acc : List Char × List String) (kv : String × Json) :
    List Char × List String :=
  let (content, updated) := acc
  if !(decide (kv.1 ∈ ALLOWED_SETTINGS)) then acc
  else
    let safe_value := (pyStr kv.2).toList
    if !(sanitizeOk safe_value) then acc
    else if lineFound kv.1 content then
      (subKey kv.1 safe_value content, updated ++ [kv.1])
    else acc

/-- Result of `update_settings`: the returned dict (`response`), the
`updated` list it contains, the `ralph.conf` cell after the call
(`newConfig`), and whether `atomic_write` was invoked (`wrote`). -/
structure SettingsOutcome where
  response : Json
  updated : List String
  newConfig : Option (List Char)
  wrote : Bool

/-- `update_settings` (serve.py lines 97-139) as a function of the
`ralph.conf` cell: missing file is the soft error
`{"error": "ralph.conf not found"}`; otherwise run the per-key loop and
write the new content back only when at least one key was updated. -/
def update_settings (settings : List (String × Json)) (config : Option (List Char)) :
    SettingsOutcome :=
  match config with
  | none => ⟨.obj [("error", .str "ralph.conf not found")], [], none, false⟩
  | some content =>
    let r := settings.foldl settingsStep (content, [])
    if r.2.isEmpty then
      ⟨.obj [("updated", .arr (r.2.map Json.str))], r.2, some content, false⟩
    else
      ⟨.obj [("updated", .arr (r.2.map Json.str))], r.2, some r.1, true⟩

/-- Python truthiness of a parsed JSON value (the `if not body` guard in
`_handle_settings`). -/
def pyFalsy : Json → Bool
  | .null => true
  | .bool b => !b
  | .num n => n = 0
  | .str s => s.isEmpty
  | .arr xs => xs.isEmpty
  | .obj ms => ms.isEmpty

/-- The member list of a JSON object (`{**result}` unpacking; the
updater's result is always a dict). -/
def objMembers : Json → List (String × Json)
  | .obj ms => ms
  | _ => []

/-- Python dict-literal merge `{"ok": True, **result}`: start from the
base members and insert each member of `result` in order. -/
def dictMerge (base ext : List (String × Json)) : List (String × Json) :=
  ext.foldl (fun acc kv => objSet acc kv.1 kv.2) base

/-- `RalphHandler._handle_settings` (serve.py lines 197-208): empty/falsy
body is a 400, otherwise the updater's result dict is merged into a 200
`{"ok": true, ...}` response; `json.JSONDecodeError` from the body parse
is a 400 and any other exception a 500.  Returns the response together
with the `ralph.conf` cell afterwards and the write flag. -/
def handle_settings (bodyRes : Except PyErr Json) (config : Option (List Char)) :
    HttpResp × Option (List Char) × Bool :=
  let run : Except PyErr (HttpResp × Option (List Char) × Bool) :=
    match bodyRes with
    | .error e => .error e
    | .ok body =>
      if pyFalsy body then
        .ok (⟨400, .obj [("error", .str "Empty body")]⟩, config, false)
      else
        match body with
        | .obj ms =>
          let out := update_settings ms config
          .ok (⟨200, .obj (dictMerge [("ok", .bool true)] (objMembers out.response))⟩,
               out.newConfig, out.wrote)
        | _ => .error (.other "AttributeError: no items")
  match run with
  | .ok r => r
  | .error .jsonDecode => (⟨400, .obj [("error", .str "Invalid JSON")]⟩, config, false)
  | .error (.other m) => (⟨500, .obj [("error", .str m)]⟩, config, false)

/-! ## Atomic file writer

`atomic_write` (serve.py lines 52-67) is modelled as a step sequence over
the observable filesystem state of the two paths it touches: the target
path and the fresh temporary file created by `tempfile.mkstemp`.
`os.replace` is a single indivisible transition, per its documented POSIX
rename contract (which the function's docstring relies on).  A failure
can be injected at each of the four steps. -/

/-- Observable contents of the target path and of the temporary file
during one `atomic_write` call (`none` = the path does not exist). -/
structure FsState where
  target : Option String
  temp : Option String
  deriving DecidableEq

/-- Where an injected failure occurs inside `atomic_write`:
`parent.mkdir`, `tempfile.mkstemp`, `f.write`, `os.replace`, or no
failure. -/
inductive FailPoint where
  | mkdirFail | mkstempFail | writeFail | replaceFail | noFail
  deriving DecidableEq

/-- The successive filesystem states of one `atomic_write(filepath, data)`
call starting from target content `target0` (the temp path is fresh, so
it starts absent), together with the propagated exception if any.
`mkdir`/`mkstemp` failures happen before the `try`, so no cleanup runs
(nothing to clean: the temp file is only created by a *successful*
`mkstemp`); `write`/`replace` failures trigger the `except` clause,
which unlinks the temp file and re-raises. -/
def atomic_write_states (fp : FailPoint) (data : String) (target0 : Option String) :
    List FsState × Option PyErr :=
  let s0 : FsState := ⟨target0, none⟩
  match fp with
  | .mkdirFail => ([s0], some (.other "OSError: mkdir"))
  | .mkstempFail => ([s0], some (.other "OSError: mkstemp"))
  | .writeFail =>
    let s1 : FsState := ⟨target0, some ""⟩
    let s2 : FsState := ⟨target0, none⟩
    ([s0, s1, s2], some (.other "OSError: write"))
  | .replaceFail =>
    let s1 : FsState := ⟨target0, some ""⟩
    let s2 : FsState := ⟨target0, some data⟩
    let s3 : FsState := ⟨target0, none⟩
    ([s0, s1, s2, s3], some (.other "OSError: replace"))
  | .noFail =>
    let s1 : FsState := ⟨target0, some ""⟩
    let s2 : FsState := ⟨target0, some data⟩
    let s3 : FsState := ⟨some data, none⟩
    ([s0, s1, s2, s3], none)

/-- Final filesystem state and exception of one `atomic_write` call. -/
def atomic_write (fp : FailPoint) (data : String) (target0 : Option String) :
    FsState × Option PyErr :=
  let r := atomic_write_states fp data target0
  (r.1.getLastD ⟨target0, none⟩, r.2)

/-! ## Helper lemmas -/

theorem objFind_objSet_self (ms : List (String × Json)) (k : String) (v : Json) :
    objFind (objSet ms k v) k = some v := by
  induction ms with
  | nil => simp [objSet, objFind]
  | cons kv rest ih =>
    by_cases h : kv.1 = k
    · simp [objSet, objFind, h]
    · simp only [objSet, objFind, h, if_false, if_neg h]
      exact ih

theorem splitNl_ne_nil (s : List Char) : splitNl s ≠ [] := by
  cases s with
  | nil => simp [splitNl]
  | cons c rest =>
    simp only [splitNl]
    by_cases h : c = '\n' <;> simp [h]

theorem mem_splitNl_no_newline :
    ∀ (s l : List Char), l ∈ splitNl s → '\n' ∉ l := by
  intro s
  induction s with
  | nil =>
    intro l hl
    simp [splitNl] at hl
    subst hl
    simp
  | cons c rest ih =>
    intro l hl
    by_cases h : c = '\n'
    · subst h
      simp only [splitNl, if_pos rfl] at hl
      rcases List.mem_cons.mp hl with rfl | hmem
      · simp
      · exact ih l hmem
    · simp only [splitNl, if_neg h] at hl
      obtain ⟨hd, tl, hht⟩ := List.exists_cons_of_ne_nil (splitNl_ne_nil rest)
      rw [hht] at hl
      simp only [List.headD, List.tail] at hl
      rcases List.mem_cons.mp hl with rfl | hmem
      · intro hcon
        rcases List.mem_cons.mp hcon with h1 | h2
        · exact h h1.symm
        · exact ih hd (hht ▸ List.mem_cons_self hd tl) h2
      · exact ih l (by rw [hht]; exact List.mem_cons_of_mem hd hmem)

theorem splitNl_append_nl (a b : List Char) :
    splitNl (a ++ '\n' :: b) = splitNl a ++ splitNl b := by
  induction a with
  | nil => simp [splitNl]
  | cons c a' ih =>
    by_cases h : c = '\n'
    · subst h
      have e : ∀ t : List Char, splitNl ('\n' :: t) = [] :: splitNl t := by
        intro t
        simp [splitNl]
      rw [List.cons_append, e, e, ih]
      rfl
    · have e : ∀ t : List Char,
          splitNl (c :: t) = (c :: (splitNl t).headD []) :: (splitNl t).tail := by
        intro t
        simp [splitNl, h]
      obtain ⟨hd, tl, hht⟩ := List.exists_cons_of_ne_nil (splitNl_ne_nil a')
      rw [List.cons_append, e, e, ih, hht]
      simp

theorem splitNl_no_newline_eq (l : List Char) (h : '\n' ∉ l) :
    splitNl l = [l] := by
  induction l with
  | nil => rfl
  | cons c rest ih =>
    have hc : ¬ c = '\n' := by
      intro hc
      exact h (hc ▸ List.mem_cons_self c rest)
    have hr : '\n' ∉ rest := fun hm => h (List.mem_cons_of_mem c hm)
    simp [splitNl, hc, ih hr]

theorem splitNl_joinNl_flat :
    ∀ (xs : List (List Char)), xs ≠ [] →
      splitNl (joinNl xs) = (xs.map splitNl).flatten := by
  intro xs
  induction xs with
  | nil => intro h; exact absurd rfl h
  | cons x rest ih =>
    intro _
    cases rest with
    | nil => simp [joinNl]
    | cons y t =>
      have hj : joinNl (x :: y :: t) = x ++ '\n' :: joinNl (y :: t) := rfl
      rw [hj, splitNl_append_nl, ih (by simp)]
      simp

theorem sublist_flatten_of_map {xs ys : List (List Char)}
    (f : List Char → List (List Char)) (h : xs.Sublist ys)
    (hf : ∀ x ∈ xs, f x = [x]) : xs.Sublist (ys.map f).flatten := by
  induction h with
  | slnil => exact List.nil_sublist _
  | cons a h ih =>
    simp only [List.map_cons, List.flatten_cons]
    exact (ih hf).trans (List.sublist_append_right _ _)
  | cons₂ a h ih =>
    rename_i l₁ l₂
    simp only [List.map_cons, List.flatten_cons,
      hf a (List.mem_cons_self _ _), List.singleton_append]
    exact List.Sublist.cons₂ a (ih fun x hx => hf x (List.mem_cons_of_mem a hx))

theorem subKey_splitNl (key : String) (w content : List Char) :
    splitNl (subKey key w content) =
      ((splitNl content).map (fun l => splitNl (replLine key w l))).flatten := by
  have h1 : (splitNl content).map (replLine key w) ≠ [] := by
    simp [List.map_eq_nil_iff, splitNl_ne_nil]
  rw [subKey, splitNl_joinNl_flat _ h1, List.map_map]
  rfl

theorem settingsStep_cases (acc : List Char × List String) (kv : String × Json) :
    settingsStep acc kv = acc ∨
    (settingsStep acc kv =
        (subKey kv.1 (pyStr kv.2).toList acc.1, acc.2 ++ [kv.1]) ∧
      kv.1 ∈ ALLOWED_SETTINGS ∧
      sanitizeOk (pyStr kv.2).toList = true ∧
      lineFound kv.1 acc.1 = true) := by
  obtain ⟨c, u⟩ := acc
  by_cases h1 : kv.1 ∈ ALLOWED_SETTINGS
  · by_cases h2 : sanitizeOk (pyStr kv.2).toList = true
    · have h2' : sanitizeOk (pyStr kv.2).data = true := h2
      by_cases h3 : lineFound kv.1 c = true
      · right
        exact ⟨by simp [settingsStep, h1, h2', h3], h1, h2, h3⟩
      · left
        simp [settingsStep, h1, h2', h3]
    · have h2' : ¬ sanitizeOk (pyStr kv.2).data = true := h2
      left
      simp [settingsStep, h1, h2']
  · left
    simp [settingsStep, h1]

theorem settingsStep_fires (acc : List Char × List String) (kv : String × Json)
    (h1 : kv.1 ∈ ALLOWED_SETTINGS) (h2 : sanitizeOk (pyStr kv.2).toList = true)
    (h3 : lineFound kv.1 acc.1 = true) :
    settingsStep acc kv =
      (subKey kv.1 (pyStr kv.2).toList acc.1, acc.2 ++ [kv.1]) := by
  obtain ⟨c, u⟩ := acc
  have h2' : sanitizeOk (pyStr kv.2).data = true := h2
  simp [settingsStep, h1, h2', h3]

theorem fold_untouched (xs : List (List Char))
    (hxT : ∀ x ∈ xs, lineTouchable x = false)
    (hxN : ∀ x ∈ xs, '\n' ∉ x) :
    ∀ (settings : List (String × Json)) (content : List Char) (upd : List String),
      xs.Sublist (splitNl content) →
      xs.Sublist (splitNl (settings.foldl settingsStep (content, upd)).1) := by
  intro settings
  induction settings with
  | nil => intro content upd h; simpa using h
  | cons kv rest ih =>
    intro content upd h
    rw [List.foldl_cons]
    rcases settingsStep_cases (content, upd) kv with hc | ⟨hc, hA, _, _⟩
    · rw [hc]
      exact ih content upd h
    · rw [hc]
      apply ih
      rw [subKey_splitNl]
      apply sublist_flatten_of_map _ h
      intro x hx
      have hk : keyEq kv.1 x = false := by
        have hT := hxT x hx
        rw [lineTouchable, List.any_eq_false] at hT
        simpa using hT kv.1 hA
      have hrepl : replLine kv.1 (pyStr kv.2).toList x = x := by
        simp [replLine, hk]
      rw [hrepl]
      exact splitNl_no_newline_eq x (hxN x hx)

theorem fold_filter_allowed :
    ∀ (settings : List (String × Json)) (acc : List Char × List String),
      settings.foldl settingsStep acc =
        (settings.filter
          (fun kv => decide (kv.1 ∈ ALLOWED_SETTINGS))).foldl settingsStep acc := by
  intro settings
  induction settings with
  | nil => intro acc; rfl
  | cons kv rest ih =>
    intro acc
    by_cases h : kv.1 ∈ ALLOWED_SETTINGS
    · rw [List.foldl_cons, List.filter_cons_of_pos (by simpa using h),
        List.foldl_cons]
      exact ih _
    · rw [List.foldl_cons, List.filter_cons_of_neg (by simpa using h)]
      have hstep : settingsStep acc kv = acc := by
        obtain ⟨c, u⟩ := acc
        simp [settingsStep, h]
      rw [hstep]
      exact ih _

theorem allowed_prefix_unique :
    ∀ k ∈ ALLOWED_SETTINGS, ∀ k' ∈ ALLOWED_SETTINGS,
      List.isPrefixOf (k.toList ++ ['=']) (k'.toList ++ ['=']) = true →
      k = k' := by decide

theorem keyEq_unique {l : List Char} {k k' : String}
    (hk : k ∈ ALLOWED_SETTINGS) (hk' : k' ∈ ALLOWED_SETTINGS)
    (h1 : keyEq k l = true) (h2 : keyEq k' l = true) : k = k' := by
  rw [keyEq, List.isPrefixOf_iff_prefix] at h1 h2
  rcases List.prefix_or_prefix_of_prefix h1 h2 with hp | hp
  · exact allowed_prefix_unique k hk k' hk'
      (List.isPrefixOf_iff_prefix.mpr hp)
  · exact (allowed_prefix_unique k' hk' k hk
      (List.isPrefixOf_iff_prefix.mpr hp)).symm

theorem keyEq_self (key : String) (rest : List Char) :
    keyEq key (key.toList ++ '=' :: rest) = true := by
  rw [keyEq, List.isPrefixOf_iff_prefix]
  exact ⟨rest, by simp⟩

theorem allowed_no_newline : ∀ k ∈ ALLOWED_SETTINGS, '\n' ∉ k.toList := by
  decide

theorem safe_no_newline {val : List Char}
    (h : ∀ c ∈ val, safeChar c = true) : '\n' ∉ val :=
  fun hm => absurd (h '\n' hm) (by decide)

theorem mem_splitNl_subKey_of_other {k' : String} {w l content : List Char}
    (hl : l ∈ splitNl content) (hne : keyEq k' l = false) (hnl : '\n' ∉ l) :
    l ∈ splitNl (subKey k' w content) := by
  rw [subKey_splitNl, List.mem_flatten]
  refine ⟨splitNl (replLine k' w l), List.mem_map_of_mem _ hl, ?_⟩
  simp [replLine, hne, splitNl_no_newline_eq l hnl]

theorem mem_splitNl_subKey_target {key : String} {w content : List Char}
    (hfound : lineFound key content = true)
    (hnl : '\n' ∉ (key.toList ++ '=' :: '"' :: (w ++ ['"']))) :
    (key.toList ++ '=' :: '"' :: (w ++ ['"'])) ∈
      splitNl (subKey key w content) := by
  rw [lineFound, List.any_eq_true] at hfound
  obtain ⟨l, hl, hkl⟩ := hfound
  rw [subKey_splitNl, List.mem_flatten]
  refine ⟨splitNl (replLine key w l), List.mem_map_of_mem _ hl, ?_⟩
  have hr : replLine key w l = key.toList ++ '=' :: '"' :: (w ++ ['"']) := by
    simp [replLine, hkl]
  rw [hr, splitNl_no_newline_eq _ hnl]
  exact List.mem_singleton.mpr rfl

theorem fold_keeps_lineFound {key : String} (hkey : key ∈ ALLOWED_SETTINGS) :
    ∀ (l : List (String × Json)) (content : List Char) (upd : List String),
      (∀ kv ∈ l, kv.1 ≠ key) → lineFound key content = true →
      lineFound key (l.foldl settingsStep (content, upd)).1 = true := by
  intro l
  induction l with
  | nil => intro content upd _ h; simpa using h
  | cons kv rest ih =>
    intro content upd hl h
    rw [List.foldl_cons]
    rcases settingsStep_cases (content, upd) kv with hc | ⟨hc, hA, _, _⟩
    · rw [hc]
      exact ih content upd (fun x hx => hl x (List.mem_cons_of_mem _ hx)) h
    · rw [hc]
      apply ih _ _ (fun x hx => hl x (List.mem_cons_of_mem _ hx))
      rw [lineFound, List.any_eq_true] at h ⊢
      obtain ⟨line, hline, hk⟩ := h
      have hne : keyEq kv.1 line = false := by
        cases hbb : keyEq kv.1 line with
        | false => rfl
        | true =>
          exact absurd (keyEq_unique hA hkey hbb hk)
            (hl kv (List.mem_cons_self _ _))
      exact ⟨line, mem_splitNl_subKey_of_other hline hne
        (mem_splitNl_no_newline content line hline), hk⟩

theorem fold_keeps_result {key : String} (hkey : key ∈ ALLOWED_SETTINGS)
    {tl : List Char} (htl : keyEq key tl = true) (hnl : '\n' ∉ tl) :
    ∀ (l : List (String × Json)) (content : List Char) (upd : List String),
      (∀ kv ∈ l, kv.1 ≠ key) → key ∈ upd → tl ∈ splitNl content →
      key ∈ (l.foldl settingsStep (content, upd)).2 ∧
        tl ∈ splitNl (l.foldl settingsStep (content, upd)).1 := by
  intro l
  induction l with
  | nil => intro content upd _ hu ht; exact ⟨hu, ht⟩
  | cons kv rest ih =>
    intro content upd hl hu ht
    rw [List.foldl_cons]
    rcases settingsStep_cases (content, upd) kv with hc | ⟨hc, hA, _, _⟩
    · rw [hc]
      exact ih content upd (fun x hx => hl x (List.mem_cons_of_mem _ hx)) hu ht
    · rw [hc]
      apply ih _ _ (fun x hx => hl x (List.mem_cons_of_mem _ hx))
        (List.mem_append_left _ hu)
      have hne : keyEq kv.1 tl = false := by
        cases hbb : keyEq kv.1 tl with
        | false => rfl
        | true =>
          exact absurd (keyEq_unique hA hkey hbb htl)
            (hl kv (List.mem_cons_self _ _))
      exact mem_splitNl_subKey_of_other ht hne hnl

theorem update_settings_eq_of_ne (settings : List (String × Json))
    (content : List Char)
    (h : (settings.foldl settingsStep (content, [])).2 ≠ []) :
    update_settings settings (some content) =
      ⟨.obj [("updated",
          .arr ((settings.foldl settingsStep (content, [])).2.map Json.str))],
       (settings.foldl settingsStep (content, [])).2,
       some (settings.foldl settingsStep (content, [])).1, true⟩ := by
  have hE : (settings.foldl settingsStep (content, [])).2.isEmpty = false := by
    cases hc : (settings.foldl settingsStep (content, [])).2 with
    | nil => exact absurd hc h
    | cons a t => rfl
  simp only [update_settings]
  rw [hE]
  simp

/-! ## Claim theorems -/

/-- Claim C1: if `atomic_write` fails at a point before the replace step
(directory creation, temp-file creation, or writing the content), then
the temporary file is removed, the error is propagated to the caller,
and the target file's content is left unmodified. -/
theorem atomic_write_prefail_cleanup (fp : FailPoint) (data : String)
    (target0 : Option String)
    (h : fp = .mkdirFail ∨ fp = .mkstempFail ∨ fp = .writeFail) :
    (atomic_write fp data target0).2.isSome = true ∧
    (atomic_write fp data target0).1.temp = none ∧
    (atomic_write fp data target0).1.target = target0 := by
  rcases h with h | h | h <;> subst h <;>
    simp [atomic_write, atomic_write_states]

/-- Witness for C1: a concrete write failure over existing content. -/
theorem atomic_write_prefail_cleanup_app :
    (atomic_write .writeFail "new" (some "old")).2.isSome = true ∧
    (atomic_write .writeFail "new" (some "old")).1.temp = none ∧
    (atomic_write .writeFail "new" (some "old")).1.target = some "old" :=
  atomic_write_prefail_cleanup .writeFail "new" (some "old")
    (Or.inr (Or.inr rfl))

/-- Claim C10: at every observable instant of an `atomic_write` call -
whether it succeeds or fails at any step - the target path holds either
the complete pre-update content or the complete post-update content,
never a truncated or partially written document. -/
theorem atomic_write_no_partial (fp : FailPoint) (data : String)
    (target0 : Option String) (st : FsState)
    (h : st ∈ (atomic_write_states fp data target0).1) :
    st.target = target0 ∨ st.target = some data := by
  cases fp <;> simp only [atomic_write_states, List.mem_cons,
    List.mem_singleton, List.not_mem_nil, or_false] at h
  case mkdirFail => subst h; exact Or.inl rfl
  case mkstempFail => subst h; exact Or.inl rfl
  case writeFail => rcases h with rfl | rfl | rfl <;> exact Or.inl rfl
  case replaceFail => rcases h with rfl | rfl | rfl | rfl <;> exact Or.inl rfl
  case noFail =>
    rcases h with rfl | rfl | rfl | rfl
    · exact Or.inl rfl
    · exact Or.inl rfl
    · exact Or.inl rfl
    · exact Or.inr rfl

/-- Witness for C10: the state right after the successful replace step of
a concrete call holds the complete new content. -/
theorem atomic_write_no_partial_app :
    (⟨some "new", none⟩ : FsState).target = some "old" ∨
    (⟨some "new", none⟩ : FsState).target = some "new" :=
  atomic_write_no_partial .noFail "new" (some "old") ⟨some "new", none⟩
    (by simp [atomic_write_states])

/-- Claim C9: enqueuing a command when the queue file does not yet exist
succeeds and produces the document `{"pending": [C]}`, both on disk
(the new file cell parses to that document) and as the returned
in-memory document. -/
theorem enqueue_fresh_queue (cmd : Json) :
    enqueue_command cmd .absent =
      .ok (Json.obj [("pending", .arr [cmd])],
           .file (dumps (Json.obj [("pending", .arr [cmd])]) ++ "\n")
                 (some (Json.obj [("pending", .arr [cmd])]))) := by
  simp [enqueue_command, enqueueDoc, objFind, objSet]

/-- Claim C2: enqueuing a command twice onto an existing queue document
appends it twice, at the end, in order, dropping no prior entries. -/
theorem enqueue_twice_appends (cmd : Json) (ms : List (String × Json))
    (ps : List Json) (raw : String)
    (h : objFind ms "pending" = some (.arr ps)) :
    ∃ d1 raw1 d2 raw2,
      enqueue_command cmd (.file raw (some (.obj ms))) =
        .ok (d1, .file raw1 (some d1)) ∧
      enqueue_command cmd (.file raw1 (some d1)) =
        .ok (d2, .file raw2 (some d2)) ∧
      objFind (objMembers d2) "pending" = some (.arr (ps ++ [cmd, cmd])) := by
  refine ⟨Json.obj (objSet ms "pending" (.arr (ps ++ [cmd]))),
          dumps (Json.obj (objSet ms "pending" (.arr (ps ++ [cmd])))) ++ "\n",
          Json.obj (objSet (objSet ms "pending" (.arr (ps ++ [cmd])))
            "pending" (.arr ((ps ++ [cmd]) ++ [cmd]))),
          dumps (Json.obj (objSet (objSet ms "pending" (.arr (ps ++ [cmd])))
            "pending" (.arr ((ps ++ [cmd]) ++ [cmd])))) ++ "\n", ?_, ?_, ?_⟩
  · simp [enqueue_command, enqueueDoc, h]
  · simp [enqueue_command, enqueueDoc, objFind_objSet_self]
  · rw [objMembers, objFind_objSet_self, List.append_assoc]
    rfl

/-- Witness for C2: a concrete double enqueue onto a one-element queue. -/
theorem enqueue_twice_appends_app :
    ∃ d1 raw1 d2 raw2,
      enqueue_command (.obj [("command", .str "pause")])
          (.file "q" (some (.obj [("pending", .arr [.str "a"])]))) =
        .ok (d1, .file raw1 (some d1)) ∧
      enqueue_command (.obj [("command", .str "pause")])
          (.file raw1 (some d1)) =
        .ok (d2, .file raw2 (some d2)) ∧
      objFind (objMembers d2) "pending" =
        some (.arr [.str "a", .obj [("command", .str "pause")],
                    .obj [("command", .str "pause")]]) :=
  enqueue_twice_appends (.obj [("command", .str "pause")])
    [("pending", .arr [.str "a"])] [.str "a"] "q" rfl

/-- Counterexample to claim C3 as stated: with a well-formed request and
a queue file whose content is unparseable JSON, the response status is
400 (the `json.JSONDecodeError` raised by `json.load` on the queue file
is caught by the handler's request-body branch), not the claimed 500.
The file cell is nevertheless returned unchanged. -/
theorem enqueue_corrupt_status_cex :
    (handle_command (.ok (.obj [("command", .str "pause")]))
        (.file "not json" none)).1.status = 400 ∧
    (handle_command (.ok (.obj [("command", .str "pause")]))
        (.file "not json" none)).1.status ≠ 500 ∧
    (handle_command (.ok (.obj [("command", .str "pause")]))
        (.file "not json" none)).2 = .file "not json" none := by
  exact ⟨rfl, by decide, rfl⟩

/-- Claim C3 (amended): enqueuing against an existing-but-unparseable
queue file produces an error response for that request - surfaced as
HTTP 400 with an "Invalid JSON" payload, since the queue file's
`json.JSONDecodeError` is caught by the same `except` clause as a bad
request body - and the on-disk queue file is left byte-for-byte
unchanged (the queue is not silently reset). -/
theorem enqueue_corrupt_badrequest (body : Json) (raw : String)
    (h : pyContains body "command" = .ok true) :
    handle_command (.ok body) (.file raw none) =
      (⟨400, .obj [("error", .str "Invalid JSON")]⟩, .file raw none) := by
  simp [handle_command, h, enqueue_command]

/-- Witness for the amended C3: a concrete command against a concrete
corrupt queue file. -/
theorem enqueue_corrupt_badrequest_app :
    handle_command (.ok (.obj [("command", .str "skip-task")]))
        (.file "\x7b broken" none) =
      (⟨400, .obj [("error", .str "Invalid JSON")]⟩, .file "\x7b broken" none) :=
  enqueue_corrupt_badrequest (.obj [("command", .str "skip-task")])
    "\x7b broken" rfl

/-- Claim C6: when the settings file does not exist, `update_settings`
does not raise (it is a total function returning the soft error
`{"error": "ralph.conf not found"}`), and `_handle_settings` turns that
into a 200 response with the error field merged into the `{ok: true}`
payload, not an HTTP error status. -/
theorem settings_missing_file_soft_error (ms : List (String × Json))
    (h : ms ≠ []) :
    update_settings ms none =
      ⟨.obj [("error", .str "ralph.conf not found")], [], none, false⟩ ∧
    handle_settings (.ok (.obj ms)) none =
      (⟨200, .obj [("ok", .bool true),
                   ("error", .str "ralph.conf not found")]⟩, none, false) := by
  constructor
  · rfl
  · have hne : ms.isEmpty = false := by
      cases ms with
      | nil => exact absurd rfl h
      | cons a t => rfl
    simp [handle_settings, pyFalsy, hne, update_settings, objMembers,
      dictMerge, objSet]

/-- Witness for C6: a concrete settings request against an absent
`ralph.conf`. -/
theorem settings_missing_file_soft_error_app :
    update_settings [("RALPH_MODE", .str "debug")] none =
      ⟨.obj [("error", .str "ralph.conf not found")], [], none, false⟩ ∧
    handle_settings (.ok (.obj [("RALPH_MODE", .str "debug")])) none =
      (⟨200, .obj [("ok", .bool true),
                   ("error", .str "ralph.conf not found")]⟩, none, false) :=
  settings_missing_file_soft_error [("RALPH_MODE", .str "debug")]
    (by simp)

/-- Claim C4 is contradicted by the code (code bug): the value
`"debug\n"` has a trailing newline - a whitespace character outside
`[A-Za-z0-9_-]` - yet `re.match(r'^[a-zA-Z0-9_\-]+$', ...)` accepts it,
because `$` also matches just before a trailing newline.  The key is
therefore *not* skipped: it is recorded as updated and the newline is
written into `ralph.conf`, contradicting the module's own "no injection
risk" documentation.  This theorem evaluates the model at that failing
input. -/
theorem update_settings_newline_value_eval :
    sanitizeOk ("debug\n".toList) = true ∧
    (update_settings [("RALPH_MODE", .str "debug\n")]
        (some ("RALPH_MODE=\"auto\"\n".toList))).updated = ["RALPH_MODE"] ∧
    (update_settings [("RALPH_MODE", .str "debug\n")]
        (some ("RALPH_MODE=\"auto\"\n".toList))).wrote = true ∧
    (update_settings [("RALPH_MODE", .str "debug\n")]
        (some ("RALPH_MODE=\"auto\"\n".toList))).newConfig =
      some ("RALPH_MODE=\"debug\n\"\n".toList) := by
  refine ⟨by decide, by decide, by decide, by decide⟩

/-- Claim C8: if zero proposed keys result in an update then no write is
performed and the settings file is byte-for-byte unchanged; in
particular this is so when every proposed key's line is absent from the
file, and then every proposed key is absent from `updated`. -/
theorem update_settings_no_update_no_write (settings : List (String × Json))
    (content : List Char) :
    ((update_settings settings (some content)).updated = [] →
      (update_settings settings (some content)).wrote = false ∧
      (update_settings settings (some content)).newConfig = some content) ∧
    ((∀ kv ∈ settings, lineFound kv.1 content = false) →
      (update_settings settings (some content)).updated = []) := by
  constructor
  · intro hupd
    have hu : (update_settings settings (some content)).updated =
        (settings.foldl settingsStep (content, [])).2 := by
      simp only [update_settings]
      split <;> rfl
    rw [hu] at hupd
    have hr : (settings.foldl settingsStep (content, [])).2.isEmpty = true := by
      rw [hupd]
      rfl
    simp [update_settings, hr]
  · intro habs
    have hfold : settings.foldl settingsStep (content, []) = (content, []) := by
      have main : ∀ (l : List (String × Json)) (upd : List String),
          (∀ kv ∈ l, lineFound kv.1 content = false) →
          l.foldl settingsStep (content, upd) = (content, upd) := by
        intro l
        induction l with
        | nil => intro upd _; rfl
        | cons kv rest ih =>
          intro upd hl
          have hkv : lineFound kv.1 content = false :=
            hl kv (List.mem_cons_self kv rest)
          have hstep : settingsStep (content, upd) kv = (content, upd) := by
            simp only [settingsStep, hkv]
            split <;> simp
          rw [List.foldl_cons, hstep]
          exact ih upd (fun x hx => hl x (List.mem_cons_of_mem kv hx))
      exact main settings [] habs
    simp [update_settings, hfold]

/-- Witness for C8: a key whose line is absent from a concrete config. -/
theorem update_settings_no_update_no_write_app :
    (update_settings [("RALPH_MODE", .str "debug")]
        (some ("OTHER=1\n".toList))).updated = [] ∧
    (update_settings [("RALPH_MODE", .str "debug")]
        (some ("OTHER=1\n".toList))).wrote = false ∧
    (update_settings [("RALPH_MODE", .str "debug")]
        (some ("OTHER=1\n".toList))).newConfig = some ("OTHER=1\n".toList) := by
  have h := update_settings_no_update_no_write
    [("RALPH_MODE", Json.str "debug")] ("OTHER=1\n".toList)
  have h2 := h.2 (by decide)
  exact ⟨h2, (h.1 h2).1, (h.1 h2).2⟩

/-- Claim C5: a proposed key outside the six-name allow-list is never
written to disk under any value (dropping all non-allow-listed keys from
the payload changes nothing about the call's outcome), and every line of
the settings file whose key is outside the allow-list survives, in
order and byte-for-byte untouched, into the written content. -/
theorem update_settings_frame (settings : List (String × Json))
    (content : List Char) :
    update_settings settings (some content) =
      update_settings
        (settings.filter (fun kv => decide (kv.1 ∈ ALLOWED_SETTINGS)))
        (some content) ∧
    ∀ c', (update_settings settings (some content)).newConfig = some c' →
      ((splitNl content).filter
        (fun l => !lineTouchable l)).Sublist (splitNl c') := by
  constructor
  · simp only [update_settings]
    rw [fold_filter_allowed]
  · intro c' hc'
    have hxT : ∀ x ∈ (splitNl content).filter (fun l => !lineTouchable l),
        lineTouchable x = false := by
      intro x hx
      simpa using List.of_mem_filter hx
    have hxN : ∀ x ∈ (splitNl content).filter (fun l => !lineTouchable l),
        '\n' ∉ x := fun x hx =>
      mem_splitNl_no_newline content x (List.mem_of_mem_filter hx)
    by_cases hr : (settings.foldl settingsStep (content, [])).2.isEmpty = true
    · simp only [update_settings, hr, if_pos, Option.some.injEq] at hc'
      subst hc'
      exact List.filter_sublist _
    · simp only [update_settings, hr, if_neg, Bool.false_eq_true,
        not_false_eq_true, Option.some.injEq] at hc'
      subst hc'
      exact fold_untouched _ hxT hxN settings content [] (List.filter_sublist _)

/-- Witness for C5: a payload mixing an allow-listed and an unknown key
against a two-line config; the non-allow-listed line survives. -/
theorem update_settings_frame_app :
    ((splitNl ("RALPH_MODE=\"auto\"\nOTHER=1\n".toList)).filter
        (fun l => !lineTouchable l)).Sublist
      (splitNl ("RALPH_MODE=\"debug\"\nOTHER=1\n".toList)) :=
  (update_settings_frame
      [("RALPH_MODE", .str "debug"), ("UNKNOWN_KEY", .str "x")]
      ("RALPH_MODE=\"auto\"\nOTHER=1\n".toList)).2
    ("RALPH_MODE=\"debug\"\nOTHER=1\n".toList) (by decide)

/-- Claim C7: for an allow-listed key with a well-formed value (nonempty,
drawn from `[A-Za-z0-9_-]`) proposed in a payload with distinct keys,
if a `KEY=` line exists in the settings file, then `update_settings`
records the key in `updated`, writes the file, and the written content
contains the line `KEY="value"` - the `KEY=` prefix kept exactly and
the sanitized value wrapped in double quotes. -/
theorem update_settings_rewrites_line (settings : List (String × Json))
    (content : List Char) (key : String) (v : Json)
    (hkey : key ∈ ALLOWED_SETTINGS)
    (hmem : (key, v) ∈ settings)
    (hnodup : (settings.map Prod.fst).Nodup)
    (hne : (pyStr v).toList ≠ [])
    (hsafe : ∀ c ∈ (pyStr v).toList, safeChar c = true)
    (hline : lineFound key content = true) :
    key ∈ (update_settings settings (some content)).updated ∧
    (update_settings settings (some content)).wrote = true ∧
    ∃ c', (update_settings settings (some content)).newConfig = some c' ∧
      (key.toList ++ '=' :: '"' :: ((pyStr v).toList ++ ['"'])) ∈
        splitNl c' := by
  obtain ⟨pre, post, rfl⟩ := List.append_of_mem hmem
  have hmap : ((pre ++ (key, v) :: post).map Prod.fst) =
      pre.map Prod.fst ++ key :: post.map Prod.fst := by simp
  rw [hmap] at hnodup
  have hdec := List.nodup_append.mp hnodup
  have hpre : ∀ kv ∈ pre, kv.1 ≠ key := by
    intro kv hkv hkk
    exact hdec.2.2 (hkk ▸ List.mem_map_of_mem Prod.fst hkv)
      (List.mem_cons_self key _)
  have hpost : ∀ kv ∈ post, kv.1 ≠ key := by
    intro kv hkv hkk
    exact (List.nodup_cons.mp hdec.2.1).1
      (hkk ▸ List.mem_map_of_mem Prod.fst hkv)
  have htl : keyEq key (key.toList ++ '=' :: '"' :: ((pyStr v).toList ++ ['"'])) =
      true := keyEq_self key _
  have hnlv : '\n' ∉ (pyStr v).toList := safe_no_newline hsafe
  have hnl : '\n' ∉ (key.toList ++ '=' :: '"' :: ((pyStr v).toList ++ ['"'])) := by
    intro hm
    rcases List.mem_append.mp hm with h1 | h1
    · exact allowed_no_newline key hkey h1
    · rcases List.mem_cons.mp h1 with h2 | h2
      · exact absurd h2 (by decide)
      · rcases List.mem_cons.mp h2 with h3 | h3
        · exact absurd h3 (by decide)
        · rcases List.mem_append.mp h3 with h4 | h4
          · exact hnlv h4
          · exact absurd (List.mem_singleton.mp h4) (by decide)
  have hsanit : sanitizeOk (pyStr v).toList = true := by
    have h1 : (pyStr v).toList.isEmpty = false := by
      cases hval : (pyStr v).toList with
      | nil => exact absurd hval hne
      | cons a t => rfl
    have h2 : (pyStr v).toList.all safeChar = true := List.all_eq_true.mpr hsafe
    have hcm : coreMatch (pyStr v).toList = true := by
      rw [coreMatch, h1, h2]
      rfl
    rw [sanitizeOk, hcm]
    rfl
  have hP := fold_keeps_lineFound hkey pre content [] hpre hline
  have hfoldall : ((pre ++ (key, v) :: post).foldl settingsStep (content, [])) =
      post.foldl settingsStep
        (subKey key (pyStr v).toList (pre.foldl settingsStep (content, [])).1,
         (pre.foldl settingsStep (content, [])).2 ++ [key]) := by
    rw [List.foldl_append, List.foldl_cons,
      settingsStep_fires _ (key, v) hkey hsanit hP]
  have htarget : (key.toList ++ '=' :: '"' :: ((pyStr v).toList ++ ['"'])) ∈
      splitNl (subKey key (pyStr v).toList
        (pre.foldl settingsStep (content, [])).1) :=
    mem_splitNl_subKey_target hP hnl
  have hfinal := fold_keeps_result hkey htl hnl post
    (subKey key (pyStr v).toList (pre.foldl settingsStep (content, [])).1)
    ((pre.foldl settingsStep (content, [])).2 ++ [key])
    hpost (List.mem_append_right _ (List.mem_singleton.mpr rfl)) htarget
  have hkeyin : key ∈
      ((pre ++ (key, v) :: post).foldl settingsStep (content, [])).2 := by
    rw [hfoldall]
    exact hfinal.1
  have hU := update_settings_eq_of_ne (pre ++ (key, v) :: post) content
    (List.ne_nil_of_mem hkeyin)
  refine ⟨?_, ?_, ?_⟩
  · rw [hU]
    exact hkeyin
  · rw [hU]
  · refine ⟨((pre ++ (key, v) :: post).foldl settingsStep (content, [])).1,
      by rw [hU], ?_⟩
    rw [hfoldall]
    exact hfinal.2

/-- Witness for C7: updating `RALPH_MODE` to `debug` in a concrete
two-line config rewrites its line to `RALPH_MODE="debug"`. -/
theorem update_settings_rewrites_line_app :
    "RALPH_MODE" ∈ (update_settings
        [("RALPH_MODE", .str "debug"), ("UNKNOWN_KEY", .str "x")]
        (some ("RALPH_MODE=\"auto\"\nOTHER=1\n".toList))).updated ∧
    (update_settings
        [("RALPH_MODE", .str "debug"), ("UNKNOWN_KEY", .str "x")]
        (some ("RALPH_MODE=\"auto\"\nOTHER=1\n".toList))).wrote = true ∧
    ∃ c', (update_settings
        [("RALPH_MODE", .str "debug"), ("UNKNOWN_KEY", .str "x")]
        (some ("RALPH_MODE=\"auto\"\nOTHER=1\n".toList))).newConfig = some c' ∧
      ("RALPH_MODE".toList ++ '=' :: '"' ::
        (((pyStr (.str "debug")).toList) ++ ['"'])) ∈ splitNl c' :=
  update_settings_rewrites_line
    [("RALPH_MODE", .str "debug"), ("UNKNOWN_KEY", .str "x")]
    ("RALPH_MODE=\"auto\"\nOTHER=1\n".toList) "RALPH_MODE" (.str "debug")
    (by decide) (List.mem_cons_self _ _) (by decide) (by decide)
    (by decide) (by decide)

end Ralph
